import Mathlib

/-!
Verification of `django_blog/static/js/scripts.js`.

A shallow embedding of the page script of the Django blog: the alert
auto-dismisser (two nested `setTimeout` calls per `.alert` element) and the
required-field guard installed on every `.auth-form`.

The document is a tree of elements kept in first-child / next-sibling form.
A JavaScript reference to an element is its identity `id`; a well-formed
document has pairwise distinct identities (`Dom.ids d` has no duplicates).
Timers run on a virtual clock: a callback runs exactly when its delay has
elapsed, earliest first, and in scheduling order among equal due times.
-/

namespace BlogScripts

/-! ## Data model -/

/-- The two inline style properties the script writes. -/
structure Style where
  transition : String
  opacity : String
deriving DecidableEq

/-- One element of the page: identity, tag name, class token list, the
`required` attribute, the current `value`, and the inline style. -/
structure Element where
  id : Nat
  tag : String
  classList : List String
  required : Bool
  value : String
  style : Style
deriving DecidableEq

/-- A forest of elements: `node el children next` is the element `el`, its
child list `children`, and its following siblings `next`. -/
inductive Dom where
  | nil : Dom
  | node (el : Element) (children : Dom) (next : Dom) : Dom
deriving DecidableEq

namespace Dom

/-- Elements in document order (preorder). -/
def elems : Dom → List Element
  | nil => []
  | node e c n => e :: (elems c ++ elems n)

/-- Identities in document order. -/
def ids (d : Dom) : List Nat := d.elems.map (·.id)

/-- Apply `f` to every element, keeping the tree shape. -/
def mapEls (f : Element → Element) : Dom → Dom
  | nil => nil
  | node e c n => node (f e) (mapEls f c) (mapEls f n)

/-- Write through a reference: apply `f` to the element whose identity is `a`. -/
def update (a : Nat) (f : Element → Element) (d : Dom) : Dom :=
  d.mapEls (fun e => if e.id = a then f e else e)

/-- Read through a reference: the element whose identity is `a`. -/
def getEl (a : Nat) (d : Dom) : Option Element :=
  d.elems.find? (fun e => e.id == a)

/-- The child forest of the element whose identity is `a`. -/
def childrenOf (a : Nat) : Dom → Option Dom
  | nil => none
  | node e c n =>
    if e.id = a then some c
    else match childrenOf a c with
      | some r => some r
      | none => childrenOf a n

/-- The method `ChildNode.remove()`: take the element `a` out of its parent, together
with everything below it. Nothing happens when `a` is not in the tree. -/
def removeId (a : Nat) : Dom → Dom
  | nil => nil
  | node e c n =>
    if e.id = a then removeId a n
    else node e (removeId a c) (removeId a n)

/-- Cut out every subtree whose root satisfies `q`. -/
def prune (q : Element → Bool) : Dom → Dom
  | nil => nil
  | node e c n =>
    if q e then prune q n
    else node e (prune q c) (prune q n)

/-- The method `querySelectorAll` on the document: references to the matching elements,
in document order. -/
def querySelectorAll (sel : Element → Bool) (d : Dom) : List Nat :=
  (d.elems.filter sel).map (·.id)

/-- The descendants of element `a` that match `sel`, as element records. -/
def matchesWithin (a : Nat) (sel : Element → Bool) (d : Dom) : List Element :=
  match d.childrenOf a with
  | none => []
  | some c => c.elems.filter sel

/-- The method `querySelectorAll` on the element `a`: references to its matching
descendants, in document order. -/
def elementQuerySelectorAll (a : Nat) (sel : Element → Bool) (d : Dom) : List Nat :=
  (d.matchesWithin a sel).map (·.id)

end Dom

/-! ## Strings and class lists -/

/-- The code points `String.prototype.trim` strips: ECMAScript WhiteSpace and
LineTerminator. -/
def isWhiteSpace (c : Char) : Bool :=
  [0x9, 0xA, 0xB, 0xC, 0xD, 0x20, 0xA0, 0x1680, 0x2000, 0x2001, 0x2002, 0x2003, 0x2004,
   0x2005, 0x2006, 0x2007, 0x2008, 0x2009, 0x200A, 0x2028, 0x2029, 0x202F, 0x205F, 0x3000,
   0xFEFF].contains c.toNat

/-- The method `String.prototype.trim`. -/
def trim (s : String) : String :=
  ⟨((s.data.dropWhile isWhiteSpace).reverse.dropWhile isWhiteSpace).reverse⟩

/-- The method `classList.contains(c)`. -/
def hasClass (c : String) (e : Element) : Bool := e.classList.contains c

/-- The method `classList.add(c)`: append the token unless it is already there. -/
def classListAdd (c : String) (e : Element) : Element :=
  { e with classList := if e.classList.contains c then e.classList else e.classList ++ [c] }

/-- The method `classList.remove(c)`. -/
def classListRemove (c : String) (e : Element) : Element :=
  { e with classList := e.classList.filter (fun x => x != c) }

/-- Selector `.alert`. -/
def selAlert (e : Element) : Bool := hasClass "alert" e

/-- Selector `.auth-form`. -/
def selAuthForm (e : Element) : Bool := hasClass "auth-form" e

/-- Selector `input[required]`. -/
def selInputRequired (e : Element) : Bool := e.tag == "input" && e.required

/-! ## Timers and the page -/

/-- The two timer callbacks of the script, closed over their alert element. -/
inductive Callback where
  | fadeOut (alert : Nat) : Callback
  | removeEl (alert : Nat) : Callback
deriving DecidableEq

/-- A pending timer: the virtual time at which it fires, and what it runs. -/
structure Timer where
  due : Nat
  callback : Callback
deriving DecidableEq

/-- The page as the script sees it. -/
structure Page where
  now : Nat
  document : Dom
  timers : List Timer
  submitListeners : List Nat
  console : List String
deriving DecidableEq

/-- The call `setTimeout(cb, delay)`: the callback falls due `delay` after now. -/
def setTimeout (cb : Callback) (delay : Nat) (p : Page) : Page :=
  { p with timers := p.timers ++ [⟨p.now + delay, cb⟩] }

/-- The assignment `alert.style.transition = v`. -/
def setTransition (v : String) (e : Element) : Element :=
  { e with style := { e.style with transition := v } }

/-- The assignment `alert.style.opacity = v`. -/
def setOpacity (v : String) (e : Element) : Element :=
  { e with style := { e.style with opacity := v } }

/-- Body of a timer callback. -/
def runCallback : Callback → Page → Page
  | .fadeOut a, p =>
    let p1 := { p with document := Dom.update a (setTransition "opacity 0.5s") p.document }
    let p2 := { p1 with document := Dom.update a (setOpacity "0") p1.document }
    setTimeout (.removeEl a) 500 p2
  | .removeEl a, p => { p with document := Dom.removeId a p.document }

/-- The timer that fires next: the earliest due, the first scheduled among
equals; returned with the remaining timers. -/
def popEarliest : List Timer → Option (Timer × List Timer)
  | [] => none
  | x :: xs =>
    match popEarliest xs with
    | none => some (x, [])
    | some (y, ys) => if x.due ≤ y.due then some (x, xs) else some (y, x :: ys)

/-- How many callback runs a pending callback can still cause. -/
def Callback.weight : Callback → Nat
  | .fadeOut _ => 2
  | .removeEl _ => 1

/-- Upper bound on the callback runs the pending timers can cause. -/
def pendingRuns (ts : List Timer) : Nat := (ts.map (fun t => t.callback.weight)).sum

/-- Run the timers that are due at or before `t`, at most `fuel` of them. -/
def runTimers : Nat → Nat → Page → Page
  | 0, _, p => p
  | fuel + 1, t, p =>
    match popEarliest p.timers with
    | none => p
    | some (tm, rest) =>
      if tm.due ≤ t then
        runTimers fuel t (runCallback tm.callback { p with now := max p.now tm.due, timers := rest })
      else p

/-- Let the virtual clock reach `t`, running every timer that falls due. -/
def advanceTo (t : Nat) (p : Page) : Page :=
  let q := runTimers (pendingRuns p.timers) t p
  { q with now := max q.now t }

/-! ## The script -/

/-- The `alerts.forEach` loop: one 5000 ms timer per alert element. -/
def scheduleAlerts (alerts : List Nat) (p : Page) : Page :=
  alerts.foldl (fun q a => setTimeout (.fadeOut a) 5000 q) p

/-- The `forms.forEach` loop: one submit listener per guarded form. -/
def attachGuards (forms : List Nat) (p : Page) : Page :=
  forms.foldl (fun q f => { q with submitListeners := q.submitListeners ++ [f] }) p

/-- The `DOMContentLoaded` listener. -/
def onDOMContentLoaded (p : Page) : Page :=
  let p1 := { p with console := p.console ++ ["Blog page loaded"] }
  let alerts := p1.document.querySelectorAll selAlert
  let p2 := scheduleAlerts alerts p1
  let forms := p2.document.querySelectorAll selAuthForm
  attachGuards forms p2

/-- What a submit handler does to the event and the user. -/
inductive Effect where
  | preventDefault : Effect
  | alert (msg : String) : Effect
deriving DecidableEq

/-- Body of `inputs.forEach`: one required input, given the document and
`isValid` so far. A reference returned by the query always reads an element;
for a reference that reads nothing the step does nothing. -/
def validateStep (acc : Dom × Bool) (input : Nat) : Dom × Bool :=
  match acc.1.getEl input with
  | none => acc
  | some el =>
    if trim el.value = "" then (acc.1.update input (classListAdd "is-invalid"), false)
    else (acc.1.update input (classListRemove "is-invalid"), acc.2)

/-- The loop `let isValid = true; inputs.forEach(...)` over the references
`inputs`, visited in list order. -/
def validateInputs (inputs : List Nat) (doc : Dom) : Dom × Bool :=
  inputs.foldl validateStep (doc, true)

/-- The tail of the handler: `if (!isValid) { e.preventDefault(); alert(...) }`. -/
def blockIfInvalid (isValid : Bool) : List Effect :=
  if !isValid then [.preventDefault, .alert "Please fill in all required fields."] else []

/-- The submit handler with the visiting order of the inputs made explicit. -/
def onSubmitVisiting (inputs : List Nat) (doc : Dom) : Dom × List Effect :=
  let r := validateInputs inputs doc
  (r.1, blockIfInvalid r.2)

/-- The submit handler of the guarded form `form`: the document after it, and
its effects in order. -/
def onSubmit (form : Nat) (doc : Dom) : Dom × List Effect :=
  onSubmitVisiting (doc.elementQuerySelectorAll form selInputRequired) doc

/-- The required inputs of `form`, as element records. -/
def requiredInputs (form : Nat) (doc : Dom) : List Element :=
  doc.matchesWithin form selInputRequired

/-- The submission is cancelled. -/
def cancelled (r : Dom × List Effect) : Prop := Effect.preventDefault ∈ r.2

/-- The element shows the invalid flag. -/
def flagged (e : Element) : Bool := hasClass "is-invalid" e


/-! ## Derived descriptions used in the statements -/

/-- Whether the element that the reference `a` reads has a blank (empty after
trimming) value; `none` when the reference reads nothing. -/
def blankAt (doc : Dom) (a : Nat) : Option Bool :=
  (doc.getEl a).map (fun x => decide (trim x.value = ""))

/-- The element after both style assignments of the fade callback. -/
def setFaded (e : Element) : Element :=
  { e with style := { transition := "opacity 0.5s", opacity := "0" } }

/-- The loop body of the handler as a function of one element record. -/
def markInput (e : Element) : Element :=
  if trim e.value = "" then classListAdd "is-invalid" e else classListRemove "is-invalid" e

/-- What one pass over the references `inputs` makes of the element `e`, the
values being read from `doc`. -/
def revalidated (inputs : List Nat) (doc : Dom) (e : Element) : Element :=
  if e.id ∈ inputs then
    match blankAt doc e.id with
    | none => e
    | some true => classListAdd "is-invalid" e
    | some false => classListRemove "is-invalid" e
  else e


/-! ## The user between submissions, and sample pages -/

/-- What the user does to a page with guarded forms: type into an input, or
submit a form (which runs its handler). -/
inductive UserAction where
  | setValue (input : Nat) (v : String) : UserAction
  | submit (form : Nat) : UserAction
deriving DecidableEq

/-- The document after one user action. -/
def act (doc : Dom) : UserAction → Dom
  | .setValue a v => doc.update a (fun e => { e with value := v })
  | .submit form => (onSubmit form doc).1

/-- The document after a sequence of user actions. -/
def session (doc : Dom) (history : List UserAction) : Dom := history.foldl act doc

/-- An element with no inline style. -/
def plainEl (id : Nat) (tag : String) (classes : List String) (required : Bool)
    (value : String) : Element :=
  ⟨id, tag, classes, required, value, ⟨"", ""⟩⟩

/-- A guarded form (1) with two required inputs, `name` (2) and `email` (3). -/
def signupDoc (name email : String) (nameClasses emailClasses : List String) : Dom :=
  .node (plainEl 1 "form" ["auth-form"] false "")
    (.node (plainEl 2 "input" nameClasses true name) .nil
      (.node (plainEl 3 "input" emailClasses true email) .nil .nil))
    .nil

/-- A guarded form (1) with a filled required input (2) and an optional input
(3) that the server rendered with the invalid flag. -/
def optionalFlaggedDoc : Dom :=
  .node (plainEl 1 "form" ["auth-form"] false "")
    (.node (plainEl 2 "input" ["form-control"] true "alice") .nil
      (.node (plainEl 3 "input" ["form-control", "is-invalid"] false "") .nil .nil))
    .nil

/-- A guarded form (1) with a filled required input (2) still flagged from an
earlier attempt and an optional input (3) that carries a flag of its own. -/
def staleFlagsDoc : Dom :=
  .node (plainEl 1 "form" ["auth-form"] false "")
    (.node (plainEl 2 "input" ["form-control", "is-invalid"] true "alice") .nil
      (.node (plainEl 3 "input" ["form-control", "is-invalid"] false "") .nil .nil))
    .nil

/-- A page with an alert (1) that wraps a `span` (2), followed by a paragraph (3). -/
def alertWithChildDoc : Dom :=
  .node (plainEl 1 "div" ["alert"] false "")
    (.node (plainEl 2 "span" [] false "") .nil .nil)
    (.node (plainEl 3 "p" [] false "") .nil .nil)

/-- A page with an alert (1) that contains another alert (2), followed by a
paragraph (3). -/
def nestedAlertDoc : Dom :=
  .node (plainEl 1 "div" ["alert"] false "")
    (.node (plainEl 2 "div" ["alert", "alert-info"] false "") .nil .nil)
    (.node (plainEl 3 "p" [] false "") .nil .nil)

/-- A page with two sibling alerts (1, 2) and a paragraph (3). -/
def twoAlertsDoc : Dom :=
  .node (plainEl 1 "div" ["alert"] false "") .nil
    (.node (plainEl 2 "div" ["alert", "alert-info"] false "") .nil
      (.node (plainEl 3 "p" [] false "") .nil .nil))

/-- The page at the moment `DOMContentLoaded` fires, at virtual time `t0`:
nothing scheduled, nothing attached, nothing logged. -/
def pageAtLoad (t0 : Nat) (doc : Dom) : Page := ⟨t0, doc, [], [], []⟩

/-! # Lemmas -/


/-! ## Trees -/

theorem Dom.elems_mapEls (f : Element → Element) (d : Dom) :
    (d.mapEls f).elems = d.elems.map f := by
  induction d with
  | nil => rfl
  | node e c n ihc ihn => simp [Dom.mapEls, Dom.elems, ihc, ihn]

theorem Dom.mapEls_mapEls (f g : Element → Element) (d : Dom) :
    (d.mapEls f).mapEls g = d.mapEls (fun e => g (f e)) := by
  induction d with
  | nil => rfl
  | node e c n ihc ihn => simp [Dom.mapEls, ihc, ihn]

theorem Dom.mapEls_congr (f g : Element → Element) (d : Dom)
    (h : ∀ e ∈ d.elems, f e = g e) : d.mapEls f = d.mapEls g := by
  induction d with
  | nil => rfl
  | node e c n ihc ihn =>
    simp only [Dom.elems, List.mem_cons, List.mem_append] at h
    simp only [Dom.mapEls]
    rw [h e (Or.inl rfl), ihc (fun x hx => h x (Or.inr (Or.inl hx))),
      ihn (fun x hx => h x (Or.inr (Or.inr hx)))]

theorem Dom.mapEls_fixed (f : Element → Element) (d : Dom)
    (h : ∀ e ∈ d.elems, f e = e) : d.mapEls f = d := by
  induction d with
  | nil => rfl
  | node e c n ihc ihn =>
    simp only [Dom.elems, List.mem_cons, List.mem_append] at h
    simp only [Dom.mapEls]
    rw [h e (Or.inl rfl), ihc (fun x hx => h x (Or.inr (Or.inl hx))),
      ihn (fun x hx => h x (Or.inr (Or.inr hx)))]

theorem Dom.ids_mapEls (f : Element → Element) (d : Dom) (hf : ∀ e, (f e).id = e.id) :
    (d.mapEls f).ids = d.ids := by
  simp [Dom.ids, Dom.elems_mapEls, List.map_map, Function.comp_def, hf]

theorem Dom.childrenOf_mapEls (f : Element → Element) (hf : ∀ e, (f e).id = e.id)
    (a : Nat) (d : Dom) :
    (d.mapEls f).childrenOf a = (d.childrenOf a).map (Dom.mapEls f) := by
  induction d with
  | nil => rfl
  | node e c n ihc ihn =>
    simp only [Dom.mapEls, Dom.childrenOf, hf]
    by_cases h : e.id = a
    · simp [h]
    · simp only [h, if_false, ihc]
      cases hc : c.childrenOf a with
      | none => simpa using ihn
      | some r => simp

theorem Dom.childrenOf_elems (a : Nat) (d c : Dom) (h : d.childrenOf a = some c) :
    ∀ e ∈ c.elems, e ∈ d.elems := by
  induction d with
  | nil => simp [Dom.childrenOf] at h
  | node x k n ihk ihn =>
    intro e he
    simp only [Dom.childrenOf] at h
    simp only [Dom.elems, List.mem_cons, List.mem_append]
    by_cases hx : x.id = a
    · simp only [hx, if_true, Option.some.injEq] at h
      subst h
      exact Or.inr (Or.inl he)
    · simp only [hx, if_false] at h
      cases hk : k.childrenOf a with
      | none =>
        rw [hk] at h
        exact Or.inr (Or.inr (ihn h e he))
      | some r =>
        rw [hk] at h
        simp only [Option.some.injEq] at h
        subst h
        exact Or.inr (Or.inl (ihk hk e he))

theorem Dom.getEl_mapEls (f : Element → Element) (hf : ∀ e, (f e).id = e.id)
    (a : Nat) (d : Dom) : (d.mapEls f).getEl a = (d.getEl a).map f := by
  unfold Dom.getEl
  rw [Dom.elems_mapEls, List.find?_map]
  have h : ((fun e : Element => e.id == a) ∘ f) = (fun e : Element => e.id == a) := by
    funext e
    simp [Function.comp_def, hf]
  rw [h]

theorem Dom.eq_of_id_eq (d : Dom) (hd : d.ids.Nodup) (e x : Element)
    (he : e ∈ d.elems) (hx : x ∈ d.elems) (h : e.id = x.id) : e = x :=
  List.inj_on_of_nodup_map hd he hx h

theorem Dom.getEl_of_mem (d : Dom) (hd : d.ids.Nodup) (e : Element) (he : e ∈ d.elems) :
    d.getEl e.id = some e := by
  unfold Dom.getEl
  cases hf : d.elems.find? (fun x => x.id == e.id) with
  | none =>
    have := List.find?_eq_none.mp hf e he
    simp at this
  | some x =>
    have hx := List.mem_of_find?_eq_some hf
    have hid := List.find?_some hf
    simp only [beq_iff_eq] at hid
    rw [Dom.eq_of_id_eq d hd x e hx he hid]

theorem Dom.getEl_mem (d : Dom) (a : Nat) (e : Element) (h : d.getEl a = some e) :
    e ∈ d.elems ∧ e.id = a := by
  unfold Dom.getEl at h
  refine ⟨List.mem_of_find?_eq_some h, ?_⟩
  simpa using List.find?_some h

theorem Dom.getEl_none (d : Dom) (a : Nat) (h : a ∉ d.ids) : d.getEl a = none := by
  unfold Dom.getEl
  rw [List.find?_eq_none]
  intro x hx hxa
  simp only [beq_iff_eq] at hxa
  exact h (by simpa [Dom.ids] using ⟨x, hx, hxa⟩)

/-! ### Removal -/

theorem Dom.removeId_eq_prune (a : Nat) (d : Dom) :
    d.removeId a = d.prune (fun e => e.id == a) := by
  induction d with
  | nil => rfl
  | node e c n ihc ihn =>
    simp only [Dom.removeId, Dom.prune, ihc, ihn, beq_iff_eq]

theorem Dom.prune_prune (q r : Element → Bool) (d : Dom) :
    (d.prune r).prune q = d.prune (fun e => r e || q e) := by
  induction d with
  | nil => rfl
  | node e c n ihc ihn =>
    by_cases hr : r e = true
    · simp [Dom.prune, hr, ihn]
    · by_cases hq : q e = true
      · simp [Dom.prune, hr, hq, ihn]
      · simp [Dom.prune, hr, hq, ihn, ihc]

theorem Dom.prune_congr (q r : Element → Bool) (d : Dom)
    (h : ∀ e ∈ d.elems, q e = r e) : d.prune q = d.prune r := by
  induction d with
  | nil => rfl
  | node e c n ihc ihn =>
    simp only [Dom.elems, List.mem_cons, List.mem_append] at h
    simp only [Dom.prune]
    rw [h e (Or.inl rfl), ihc (fun x hx => h x (Or.inr (Or.inl hx))),
      ihn (fun x hx => h x (Or.inr (Or.inr hx)))]

theorem Dom.prune_mapEls (q : Element → Bool) (f : Element → Element)
    (hf : ∀ e, q (f e) = q e) (d : Dom) :
    (d.mapEls f).prune q = (d.prune q).mapEls f := by
  induction d with
  | nil => rfl
  | node e c n ihc ihn =>
    by_cases hq : q e = true
    · simp [Dom.prune, Dom.mapEls, hf, hq, ihn]
    · simp [Dom.prune, Dom.mapEls, hf, hq, ihn, ihc]

theorem Dom.elems_prune_sublist (q : Element → Bool) (d : Dom) :
    (d.prune q).elems.Sublist d.elems := by
  induction d with
  | nil => exact List.Sublist.refl _
  | node e c n ihc ihn =>
    by_cases hq : q e = true
    · simp only [Dom.prune, hq, if_true, Dom.elems]
      exact List.Sublist.cons _ (ihn.trans (List.sublist_append_right _ _))
    · simp only [Dom.prune, hq, Dom.elems]
      exact List.Sublist.cons₂ _ (List.Sublist.append ihc ihn)

theorem Dom.prune_elems_false (q : Element → Bool) (d : Dom) :
    ∀ e ∈ (d.prune q).elems, q e = false := by
  induction d with
  | nil => simp [Dom.prune, Dom.elems]
  | node x c n ihc ihn =>
    intro e he
    by_cases hq : q x = true
    · simp only [Dom.prune, hq, if_true] at he
      exact ihn e he
    · simp only [Dom.prune, hq, Dom.elems, List.mem_cons, List.mem_append] at he
      rcases he with rfl | he | he
      · simpa using hq
      · exact ihc e he
      · exact ihn e he

theorem Dom.prune_none (q : Element → Bool) (d : Dom) (h : ∀ e ∈ d.elems, q e = false) :
    d.prune q = d := by
  induction d with
  | nil => rfl
  | node e c n ihc ihn =>
    simp only [Dom.elems, List.mem_cons, List.mem_append] at h
    simp only [Dom.prune, h e (Or.inl rfl)]
    rw [ihc (fun x hx => h x (Or.inr (Or.inl hx))), ihn (fun x hx => h x (Or.inr (Or.inr hx)))]
    simp


/-! ## The validation pass -/

theorem classListAdd_idem (c : String) (e : Element) :
    classListAdd c (classListAdd c e) = classListAdd c e := by
  unfold classListAdd
  by_cases h : c ∈ e.classList
  · simp [h]
  · simp [h]

theorem classListRemove_idem (c : String) (e : Element) :
    classListRemove c (classListRemove c e) = classListRemove c e := by
  simp [classListRemove, List.filter_filter]

theorem revalidated_id (inputs : List Nat) (doc : Dom) (e : Element) :
    (revalidated inputs doc e).id = e.id := by
  unfold revalidated
  split
  · split <;> simp [classListAdd, classListRemove]
  · rfl

theorem revalidated_value (inputs : List Nat) (doc : Dom) (e : Element) :
    (revalidated inputs doc e).value = e.value := by
  unfold revalidated
  split
  · split <;> simp [classListAdd, classListRemove]
  · rfl

theorem blankAt_mapEls (f : Element → Element) (hid : ∀ e, (f e).id = e.id)
    (hv : ∀ e, (f e).value = e.value) (doc : Dom) (a : Nat) :
    blankAt (doc.mapEls f) a = blankAt doc a := by
  unfold blankAt
  rw [Dom.getEl_mapEls f hid]
  cases doc.getEl a <;> simp [hv]

theorem validateStep_eq (d : Dom) (b : Bool) (a : Nat) :
    validateStep (d, b) a =
      (d.mapEls (revalidated [a] d), b && !((blankAt d a).getD false)) := by
  unfold validateStep
  cases hg : d.getEl a with
  | none =>
    have hb : blankAt d a = none := by simp [blankAt, hg]
    simp only [hb, Option.getD_none, Bool.not_false, Bool.and_true]
    rw [Dom.mapEls_fixed]
    intro e _
    unfold revalidated
    by_cases he : e.id = a
    · simp [he, hb]
    · simp [he]
  | some x =>
    by_cases hx : trim x.value = ""
    · have hb : blankAt d a = some true := by simp [blankAt, hg, hx]
      simp only [hx, if_true, hb, Option.getD_some, Bool.not_true, Bool.and_false]
      congr 1
      unfold Dom.update
      congr 1
      funext e
      unfold revalidated
      by_cases he : e.id = a
      · simp [he, hb]
      · simp [he]
    · have hb : blankAt d a = some false := by simp [blankAt, hg, hx]
      simp only [hx, if_false, hb, Option.getD_some, Bool.not_false, Bool.and_true]
      congr 1
      unfold Dom.update
      congr 1
      funext e
      unfold revalidated
      by_cases he : e.id = a
      · simp [he, hb]
      · simp [he]

theorem revalidated_cons (a : Nat) (rest : List Nat) (d : Dom) (e : Element) :
    revalidated rest (d.mapEls (revalidated [a] d)) (revalidated [a] d e) =
      revalidated (a :: rest) d e := by
  have hb : ∀ x, blankAt (d.mapEls (revalidated [a] d)) x = blankAt d x :=
    blankAt_mapEls _ (revalidated_id _ _) (revalidated_value _ _) d
  generalize d.mapEls (revalidated [a] d) = d1 at hb
  unfold revalidated
  simp only [hb]
  have hA : (classListAdd "is-invalid" e).id = e.id := rfl
  have hR : (classListRemove "is-invalid" e).id = e.id := rfl
  by_cases he : e.id = a
  · subst he
    cases hba : blankAt d e.id with
    | none => simp [hba]
    | some v =>
      cases v <;> by_cases hr : e.id ∈ rest <;>
        simp [hba, hr, hA, hR, classListAdd_idem, classListRemove_idem]
  · simp [he]

theorem foldl_validateStep (inputs : List Nat) (d : Dom) (b : Bool) :
    inputs.foldl validateStep (d, b) =
      (d.mapEls (revalidated inputs d),
        b && inputs.all (fun a => !((blankAt d a).getD false))) := by
  induction inputs generalizing d b with
  | nil =>
    simp only [List.foldl_nil, List.all_nil, Bool.and_true]
    rw [Dom.mapEls_fixed]
    intro e _
    simp [revalidated]
  | cons a rest ih =>
    rw [List.foldl_cons, validateStep_eq, ih, Dom.mapEls_mapEls]
    have hb : ∀ x, blankAt (d.mapEls (revalidated [a] d)) x = blankAt d x :=
      blankAt_mapEls _ (revalidated_id _ _) (revalidated_value _ _) d
    simp only [hb, revalidated_cons, List.all_cons, Bool.and_assoc]

theorem validateInputs_eq (inputs : List Nat) (doc : Dom) :
    validateInputs inputs doc =
      (doc.mapEls (revalidated inputs doc),
        inputs.all (fun a => !((blankAt doc a).getD false))) := by
  unfold validateInputs
  rw [foldl_validateStep, Bool.true_and]


theorem blankAt_of_mem (doc : Dom) (hd : doc.ids.Nodup) (e : Element) (he : e ∈ doc.elems) :
    blankAt doc e.id = some (decide (trim e.value = "")) := by
  simp [blankAt, Dom.getEl_of_mem doc hd e he]

theorem revalidated_of_mem (inputs : List Nat) (doc : Dom) (hd : doc.ids.Nodup)
    (e : Element) (he : e ∈ doc.elems) :
    revalidated inputs doc e = if e.id ∈ inputs then markInput e else e := by
  unfold revalidated markInput
  rw [blankAt_of_mem doc hd e he]
  by_cases hb : trim e.value = "" <;> by_cases hi : e.id ∈ inputs <;> simp [hb, hi]

theorem matchesWithin_mem (a : Nat) (sel : Element → Bool) (doc : Dom) (e : Element)
    (he : e ∈ doc.matchesWithin a sel) : e ∈ doc.elems ∧ sel e = true := by
  unfold Dom.matchesWithin at he
  cases hc : doc.childrenOf a with
  | none => simp [hc] at he
  | some c =>
    simp only [hc, List.mem_filter] at he
    exact ⟨Dom.childrenOf_elems a doc c hc e he.1, he.2⟩

theorem matchesWithin_mapEls (a : Nat) (sel : Element → Bool) (f : Element → Element)
    (hid : ∀ e, (f e).id = e.id) (hs : ∀ e, sel (f e) = sel e) (doc : Dom) :
    (doc.mapEls f).matchesWithin a sel = (doc.matchesWithin a sel).map f := by
  unfold Dom.matchesWithin
  rw [Dom.childrenOf_mapEls f hid]
  cases doc.childrenOf a with
  | none => rfl
  | some c =>
    simp only [Option.map_some', Dom.elems_mapEls, List.filter_map]
    congr 2
    funext e
    exact hs e

theorem mem_inputs_iff (form : Nat) (sel : Element → Bool) (doc : Dom) (hd : doc.ids.Nodup)
    (e : Element) (he : e ∈ doc.elems) :
    e.id ∈ doc.elementQuerySelectorAll form sel ↔ e ∈ doc.matchesWithin form sel := by
  unfold Dom.elementQuerySelectorAll
  constructor
  · intro h
    obtain ⟨x, hx, hxe⟩ := List.mem_map.mp h
    have := Dom.eq_of_id_eq doc hd x e (matchesWithin_mem form sel doc x hx).1 he hxe
    exact this ▸ hx
  · intro h
    exact List.mem_map.mpr ⟨e, h, rfl⟩

theorem revalidated_sel (inputs : List Nat) (doc : Dom) (e : Element) :
    selInputRequired (revalidated inputs doc e) = selInputRequired e := by
  unfold revalidated
  split
  · split <;> simp [classListAdd, classListRemove, selInputRequired]
  · rfl

theorem onSubmit_document (form : Nat) (doc : Dom) :
    (onSubmit form doc).1 =
      doc.mapEls (revalidated (doc.elementQuerySelectorAll form selInputRequired) doc) := by
  simp [onSubmit, onSubmitVisiting, validateInputs_eq]

theorem onSubmit_effects (form : Nat) (doc : Dom) :
    (onSubmit form doc).2 =
      blockIfInvalid ((doc.elementQuerySelectorAll form selInputRequired).all
        (fun a => !((blankAt doc a).getD false))) := by
  simp [onSubmit, onSubmitVisiting, validateInputs_eq]

theorem requiredInputs_after (form : Nat) (doc : Dom) (hd : doc.ids.Nodup) :
    requiredInputs form (onSubmit form doc).1 = (requiredInputs form doc).map markInput := by
  unfold requiredInputs
  rw [onSubmit_document, matchesWithin_mapEls form selInputRequired _
    (revalidated_id _ _) (revalidated_sel _ _)]
  apply List.map_congr_left
  intro e he
  have hmem := (matchesWithin_mem form selInputRequired doc e he).1
  rw [revalidated_of_mem _ doc hd e hmem]
  have : e.id ∈ doc.elementQuerySelectorAll form selInputRequired :=
    (mem_inputs_iff form selInputRequired doc hd e hmem).mpr he
  simp [this]

theorem isValid_iff (form : Nat) (doc : Dom) (hd : doc.ids.Nodup) :
    (doc.elementQuerySelectorAll form selInputRequired).all
        (fun a => !((blankAt doc a).getD false)) = true ↔
      ∀ e ∈ requiredInputs form doc, trim e.value ≠ "" := by
  rw [List.all_eq_true]
  unfold Dom.elementQuerySelectorAll requiredInputs
  constructor
  · intro h e he
    have hmem := (matchesWithin_mem form selInputRequired doc e he).1
    have := h e.id (List.mem_map.mpr ⟨e, he, rfl⟩)
    rw [blankAt_of_mem doc hd e hmem] at this
    simpa using this
  · intro h a ha
    obtain ⟨e, he, rfl⟩ := List.mem_map.mp ha
    have hmem := (matchesWithin_mem form selInputRequired doc e he).1
    rw [blankAt_of_mem doc hd e hmem]
    simpa using h e he

theorem flagged_markInput (e : Element) :
    flagged (markInput e) = true ↔ trim e.value = "" := by
  unfold markInput flagged hasClass
  by_cases hb : trim e.value = ""
  · simp only [hb, if_true, iff_true]
    unfold classListAdd
    by_cases hc : "is-invalid" ∈ e.classList <;> simp [hc]
  · simp [hb, classListRemove]

theorem markInput_value (e : Element) : (markInput e).value = e.value := by
  unfold markInput
  split <;> rfl

theorem markInput_id (e : Element) : (markInput e).id = e.id := by
  unfold markInput
  split <;> rfl

theorem blockIfInvalid_true : blockIfInvalid true = [] := rfl

theorem blockIfInvalid_false :
    blockIfInvalid false =
      [Effect.preventDefault, Effect.alert "Please fill in all required fields."] := rfl


theorem revalidated_idem (inputs : List Nat) (doc doc1 : Dom)
    (hb : ∀ x, blankAt doc1 x = blankAt doc x) (e : Element) :
    revalidated inputs doc1 (revalidated inputs doc e) = revalidated inputs doc e := by
  have hA : (classListAdd "is-invalid" e).id = e.id := rfl
  have hR : (classListRemove "is-invalid" e).id = e.id := rfl
  unfold revalidated
  simp only [hb]
  by_cases hi : e.id ∈ inputs
  · cases hba : blankAt doc e.id with
    | none => simp [hi, hba]
    | some v => cases v <;> simp [hi, hba, hA, hR, classListAdd_idem, classListRemove_idem]
  · simp [hi]

theorem revalidated_congr (xs ys : List Nat) (h : ∀ a, a ∈ xs ↔ a ∈ ys) (doc : Dom)
    (e : Element) : revalidated xs doc e = revalidated ys doc e := by
  unfold revalidated
  simp only [h]

theorem inputs_after (form : Nat) (doc : Dom) :
    (onSubmit form doc).1.elementQuerySelectorAll form selInputRequired =
      doc.elementQuerySelectorAll form selInputRequired := by
  rw [onSubmit_document]
  unfold Dom.elementQuerySelectorAll
  rw [matchesWithin_mapEls form selInputRequired _ (revalidated_id _ _) (revalidated_sel _ _),
    List.map_map]
  apply List.map_congr_left
  intro e _
  exact revalidated_id _ _ e

theorem blankAt_after (form : Nat) (doc : Dom) (x : Nat) :
    blankAt (onSubmit form doc).1 x = blankAt doc x := by
  rw [onSubmit_document]
  exact blankAt_mapEls _ (revalidated_id _ _) (revalidated_value _ _) doc x

theorem onSubmit_idem (form : Nat) (doc : Dom) :
    onSubmit form (onSubmit form doc).1 = onSubmit form doc := by
  apply Prod.ext
  · rw [onSubmit_document form (onSubmit form doc).1, inputs_after,
      onSubmit_document form doc, Dom.mapEls_mapEls]
    apply Dom.mapEls_congr
    intro e _
    exact revalidated_idem _ doc _
      (blankAt_mapEls _ (revalidated_id _ _) (revalidated_value _ _) doc) e
  · rw [onSubmit_effects, inputs_after, onSubmit_effects]
    simp only [blankAt_after]

theorem ids_after (form : Nat) (doc : Dom) : (onSubmit form doc).1.ids = doc.ids := by
  rw [onSubmit_document]
  exact Dom.ids_mapEls _ doc (revalidated_id _ _)

theorem ids_act (doc : Dom) (a : UserAction) : (act doc a).ids = doc.ids := by
  cases a with
  | setValue i v =>
    unfold act Dom.update
    apply Dom.ids_mapEls
    intro e
    split <;> rfl
  | submit form => exact ids_after form doc

theorem ids_session (doc : Dom) (history : List UserAction) :
    (session doc history).ids = doc.ids := by
  unfold session
  induction history generalizing doc with
  | nil => rfl
  | cons a rest ih => rw [List.foldl_cons, ih, ids_act]

theorem classList_rest_add (c : String) (e : Element) :
    (classListAdd c e).classList.filter (fun x => x != c) =
      e.classList.filter (fun x => x != c) := by
  unfold classListAdd
  by_cases h : c ∈ e.classList <;> simp [h, List.filter_append]

theorem classList_rest_remove (c : String) (e : Element) :
    (classListRemove c e).classList.filter (fun x => x != c) =
      e.classList.filter (fun x => x != c) := by
  simp [classListRemove, List.filter_filter]


/-! ## Timers -/

theorem popEarliest_mem (l : List Timer) (y : Timer) (ys : List Timer)
    (h : popEarliest l = some (y, ys)) : y ∈ l := by
  induction l generalizing y ys with
  | nil => simp [popEarliest] at h
  | cons x xs ih =>
    simp only [popEarliest] at h
    cases hp : popEarliest xs with
    | none =>
      simp only [hp, Option.some.injEq, Prod.mk.injEq] at h
      simp [← h.1]
    | some r =>
      obtain ⟨z, zs⟩ := r
      simp only [hp] at h
      by_cases hle : x.due ≤ z.due
      · simp only [hle, if_true, Option.some.injEq, Prod.mk.injEq] at h
        simp [← h.1]
      · simp only [hle, if_false, Option.some.injEq, Prod.mk.injEq] at h
        rw [← h.1]
        exact List.mem_cons_of_mem _ (ih z zs hp)

theorem popEarliest_head (x : Timer) (xs : List Timer) (h : ∀ y ∈ xs, x.due ≤ y.due) :
    popEarliest (x :: xs) = some (x, xs) := by
  simp only [popEarliest]
  cases hp : popEarliest xs with
  | none =>
    cases xs with
    | nil => rfl
    | cons z zs =>
      simp only [popEarliest] at hp
      cases hq : popEarliest zs with
      | none => simp [hq] at hp
      | some r =>
        simp only [hq] at hp
        split at hp <;> simp at hp
  | some r =>
    obtain ⟨z, zs⟩ := r
    simp [h z (popEarliest_mem xs z zs hp)]

theorem runTimers_idle (fuel t : Nat) (p : Page) (h : ∀ tm ∈ p.timers, t < tm.due) :
    runTimers fuel t p = p := by
  cases fuel with
  | zero => rfl
  | succ n =>
    simp only [runTimers]
    cases hp : popEarliest p.timers with
    | none => rfl
    | some r =>
      obtain ⟨tm, rest⟩ := r
      have := h tm (popEarliest_mem _ _ _ hp)
      simp [Nat.not_le.mpr this]

theorem runTimers_fire (fuel t : Nat) (p : Page) (tm : Timer) (rest : List Timer)
    (hp : popEarliest p.timers = some (tm, rest)) (hd : tm.due ≤ t) :
    runTimers (fuel + 1) t p =
      runTimers fuel t
        (runCallback tm.callback { p with now := max p.now tm.due, timers := rest }) := by
  simp [runTimers, hp, hd]

/-- The document after the fade callback of `a`. -/
theorem fade_document (a : Nat) (d : Dom) :
    Dom.update a (setOpacity "0") (Dom.update a (setTransition "opacity 0.5s") d) =
      d.mapEls (fun e => if e.id = a then setFaded e else e) := by
  unfold Dom.update
  rw [Dom.mapEls_mapEls]
  congr 1
  funext e
  by_cases h : e.id = a
  · have h2 : (setTransition "opacity 0.5s" e).id = a := h
    simp only [h, h2, if_true]
    rfl
  · simp [h]

theorem foldl_fade (as : List Nat) (d : Dom) :
    as.foldl (fun dd a => Dom.update a (setOpacity "0")
        (Dom.update a (setTransition "opacity 0.5s") dd)) d =
      d.mapEls (fun e => if e.id ∈ as then setFaded e else e) := by
  induction as generalizing d with
  | nil =>
    simp only [List.foldl_nil, List.not_mem_nil, if_false]
    exact (Dom.mapEls_fixed _ d (fun _ _ => rfl)).symm
  | cons a rest ih =>
    rw [List.foldl_cons, ih, fade_document, Dom.mapEls_mapEls]
    congr 1
    funext e
    have hF : (setFaded e).id = e.id := rfl
    by_cases h : e.id = a
    · by_cases hr : a ∈ rest
      · simp only [h, hF, hr, if_true, List.mem_cons, true_or]
        rfl
      · simp [h, hF, hr]
    · simp [h]

theorem foldl_removeId (bs : List Nat) (d : Dom) :
    bs.foldl (fun dd a => Dom.removeId a dd) d = d.prune (fun e => decide (e.id ∈ bs)) := by
  induction bs generalizing d with
  | nil =>
    simp only [List.foldl_nil, List.not_mem_nil, decide_False]
    exact (Dom.prune_none _ d (fun _ _ => rfl)).symm
  | cons a rest ih =>
    rw [List.foldl_cons, ih, Dom.removeId_eq_prune, Dom.prune_prune]
    congr 1
    funext e
    rw [Bool.eq_iff_iff]
    simp [List.mem_cons]

theorem prune_after_fade (as : List Nat) (d : Dom) :
    (d.mapEls (fun e => if e.id ∈ as then setFaded e else e)).prune
        (fun e => decide (e.id ∈ as)) =
      d.prune (fun e => decide (e.id ∈ as)) := by
  rw [Dom.prune_mapEls]
  · apply Dom.mapEls_fixed
    intro e he
    have := Dom.prune_elems_false _ d e he
    simp only [decide_eq_false_iff_not] at this
    simp [this]
  · intro e
    have hF : (setFaded e).id = e.id := rfl
    by_cases h : e.id ∈ as <;> simp [h, hF]

theorem runTimers_fades (as bs : List Nat) (k t d now : Nat) (doc : Dom)
    (ls : List Nat) (log : List String) (hnow : now ≤ d) (ht : d ≤ t) :
    runTimers (as.length + k) t
        ⟨now, doc, as.map (fun a => ⟨d, Callback.fadeOut a⟩) ++
          bs.map (fun a => ⟨d + 500, Callback.removeEl a⟩), ls, log⟩ =
      runTimers k t
        ⟨if as = [] then now else d,
          as.foldl (fun dd a => Dom.update a (setOpacity "0")
            (Dom.update a (setTransition "opacity 0.5s") dd)) doc,
          (bs ++ as).map (fun a => ⟨d + 500, Callback.removeEl a⟩), ls, log⟩ := by
  induction as generalizing bs now doc with
  | nil => simp
  | cons a rest ih =>
    have hlen : (a :: rest).length + k = (rest.length + k) + 1 := by
      simp only [List.length_cons]; omega
    rw [hlen, runTimers_fire _ t _ ⟨d, Callback.fadeOut a⟩
      (rest.map (fun a => ⟨d, Callback.fadeOut a⟩) ++
        bs.map (fun a => ⟨d + 500, Callback.removeEl a⟩))]
    · have hmax : max now d = d := Nat.max_eq_right hnow
      simp only [runCallback, setTimeout, hmax, List.append_assoc]
      have := ih (bs ++ [a]) d
        (Dom.update a (setOpacity "0") (Dom.update a (setTransition "opacity 0.5s") doc))
        (Nat.le_refl d)
      simp only [List.map_append, List.map_cons, List.map_nil, List.append_assoc,
        List.singleton_append, ite_self] at this ⊢
      simpa using this
    · apply popEarliest_head
      intro y hy
      have hy2 : y ∈ rest.map (fun a => (⟨d, Callback.fadeOut a⟩ : Timer)) ++
          bs.map (fun a => (⟨d + 500, Callback.removeEl a⟩ : Timer)) := hy
      simp only [List.mem_append, List.mem_map] at hy2
      rcases hy2 with ⟨_, _, hy⟩ | ⟨_, _, hy⟩
      · rw [← hy]
      · rw [← hy]
        exact Nat.le_add_right _ _
    · exact ht

theorem runTimers_removes (bs : List Nat) (k t d now : Nat) (doc : Dom)
    (ls : List Nat) (log : List String) (ht : d ≤ t) :
    runTimers (bs.length + k) t
        ⟨now, doc, bs.map (fun a => ⟨d, Callback.removeEl a⟩), ls, log⟩ =
      ⟨if bs = [] then now else max now d,
        bs.foldl (fun dd a => Dom.removeId a dd) doc, [], ls, log⟩ := by
  induction bs generalizing now doc with
  | nil =>
    simp only [List.map_nil, if_true, List.foldl_nil]
    exact runTimers_idle _ t _ (by simp)
  | cons a rest ih =>
    have hlen : (a :: rest).length + k = (rest.length + k) + 1 := by
      simp only [List.length_cons]; omega
    rw [hlen, runTimers_fire _ t _ ⟨d, Callback.removeEl a⟩
      (rest.map (fun a => ⟨d, Callback.removeEl a⟩))]
    · simp only [runCallback]
      rw [ih]
      by_cases hr : rest = [] <;> simp [hr]
    · apply popEarliest_head
      intro y hy
      simp only [List.mem_map] at hy
      obtain ⟨_, _, hy⟩ := hy
      rw [← hy]
    · exact ht

theorem scheduleAlerts_eq (as : List Nat) (p : Page) :
    scheduleAlerts as p =
      { p with timers := p.timers ++ as.map (fun a => ⟨p.now + 5000, Callback.fadeOut a⟩) } := by
  unfold scheduleAlerts
  induction as generalizing p with
  | nil => simp
  | cons a rest ih =>
    rw [List.foldl_cons, ih]
    simp [setTimeout]

theorem attachGuards_eq (fs : List Nat) (p : Page) :
    attachGuards fs p = { p with submitListeners := p.submitListeners ++ fs } := by
  unfold attachGuards
  induction fs generalizing p with
  | nil => simp
  | cons a rest ih =>
    rw [List.foldl_cons, ih]
    simp

theorem onDOMContentLoaded_atLoad (t0 : Nat) (doc : Dom) :
    onDOMContentLoaded (pageAtLoad t0 doc) =
      ⟨t0, doc, (doc.querySelectorAll selAlert).map (fun a => ⟨t0 + 5000, Callback.fadeOut a⟩),
        doc.querySelectorAll selAuthForm, ["Blog page loaded"]⟩ := by
  simp [onDOMContentLoaded, pageAtLoad, scheduleAlerts_eq, attachGuards_eq]

theorem pendingRuns_fades (as : List Nat) (d : Nat) :
    pendingRuns (as.map (fun a => ⟨d, Callback.fadeOut a⟩)) = as.length + as.length := by
  unfold pendingRuns
  induction as with
  | nil => rfl
  | cons a rest ih =>
    simp only [List.map_cons, List.sum_cons, List.length_cons, Callback.weight] at ih ⊢
    omega


theorem mem_querySelectorAll_iff (sel : Element → Bool) (doc : Dom) (hd : doc.ids.Nodup)
    (e : Element) (he : e ∈ doc.elems) :
    e.id ∈ doc.querySelectorAll sel ↔ sel e = true := by
  unfold Dom.querySelectorAll
  constructor
  · intro h
    obtain ⟨x, hx, hxe⟩ := List.mem_map.mp h
    have hx2 := List.mem_filter.mp hx
    rw [← Dom.eq_of_id_eq doc hd x e hx2.1 he hxe]
    exact hx2.2
  · intro h
    exact List.mem_map.mpr ⟨e, List.mem_filter.mpr ⟨he, h⟩, rfl⟩

theorem querySelectorAll_nodup (sel : Element → Bool) (doc : Dom) (hd : doc.ids.Nodup) :
    (doc.querySelectorAll sel).Nodup := by
  unfold Dom.querySelectorAll
  exact List.Nodup.sublist (List.Sublist.map _ (List.filter_sublist _)) hd

theorem advanceTo_document (t : Nat) (p : Page) :
    (advanceTo t p).document = (runTimers (pendingRuns p.timers) t p).document := rfl

theorem advanceTo_timers (t : Nat) (p : Page) :
    (advanceTo t p).timers = (runTimers (pendingRuns p.timers) t p).timers := rfl

/-- Before the first delay has elapsed nothing runs. -/
theorem run_before_fade (as : List Nat) (n t t0 : Nat) (doc : Dom) (ls : List Nat)
    (log : List String) (ht : t < t0 + 5000) :
    runTimers n t ⟨t0, doc, as.map (fun a => ⟨t0 + 5000, Callback.fadeOut a⟩), ls, log⟩ =
      ⟨t0, doc, as.map (fun a => ⟨t0 + 5000, Callback.fadeOut a⟩), ls, log⟩ := by
  apply runTimers_idle
  intro tm htm
  simp only [List.mem_map] at htm
  obtain ⟨_, _, h⟩ := htm
  rw [← h]
  exact ht

/-- Between the two delays every fade callback has run and no removal has. -/
theorem run_between (as : List Nat) (t t0 : Nat) (doc : Dom) (ls : List Nat)
    (log : List String) (h1 : t0 + 5000 ≤ t) (h2 : t < t0 + 5500) :
    runTimers (as.length + as.length) t
        ⟨t0, doc, as.map (fun a => ⟨t0 + 5000, Callback.fadeOut a⟩), ls, log⟩ =
      ⟨if as = [] then t0 else t0 + 5000,
        doc.mapEls (fun e => if e.id ∈ as then setFaded e else e),
        as.map (fun a => ⟨t0 + 5000 + 500, Callback.removeEl a⟩), ls, log⟩ := by
  have h := runTimers_fades as [] as.length t (t0 + 5000) t0 doc ls log
    (Nat.le_add_right _ _) h1
  simp only [List.map_nil, List.append_nil, List.nil_append] at h
  rw [h, foldl_fade]
  apply runTimers_idle
  intro tm htm
  simp only [List.mem_map] at htm
  obtain ⟨_, _, h⟩ := htm
  rw [← h]
  show t < t0 + 5000 + 500
  omega

/-- Once both delays have elapsed every callback has run and no timer is left. -/
theorem run_after_remove (as : List Nat) (t t0 : Nat) (doc : Dom) (ls : List Nat)
    (log : List String) (h1 : t0 + 5500 ≤ t) :
    runTimers (as.length + as.length) t
        ⟨t0, doc, as.map (fun a => ⟨t0 + 5000, Callback.fadeOut a⟩), ls, log⟩ =
      ⟨if as = [] then t0 else t0 + 5000 + 500,
        doc.prune (fun e => decide (e.id ∈ as)), [], ls, log⟩ := by
  have h := runTimers_fades as [] as.length t (t0 + 5000) t0 doc ls log
    (Nat.le_add_right _ _) (by omega)
  simp only [List.map_nil, List.append_nil, List.nil_append] at h
  rw [h, foldl_fade]
  have h3 := runTimers_removes as 0 t (t0 + 5000 + 500) (if as = [] then t0 else t0 + 5000)
    (doc.mapEls (fun e => if e.id ∈ as then setFaded e else e)) ls log (by omega)
  simp only [Nat.add_zero] at h3
  rw [h3, foldl_removeId, prune_after_fade]
  by_cases ha : as = []
  · simp [ha]
  · have hm : max (t0 + 5000) (t0 + 5000 + 500) = t0 + 5000 + 500 :=
      Nat.max_eq_right (Nat.le_add_right _ _)
    simp only [ha, if_false, hm]

theorem Dom.update_absent (a : Nat) (f : Element → Element) (d : Dom) (h : a ∉ d.ids) :
    d.update a f = d := by
  unfold Dom.update
  apply Dom.mapEls_fixed
  intro e he
  have : e.id ≠ a := by
    intro hea
    exact h (by simpa [Dom.ids] using ⟨e, he, hea⟩)
  simp [this]

theorem Dom.removeId_absent (a : Nat) (d : Dom) (h : a ∉ d.ids) : d.removeId a = d := by
  rw [Dom.removeId_eq_prune]
  apply Dom.prune_none
  intro e he
  have : e.id ≠ a := by
    intro hea
    exact h (by simpa [Dom.ids] using ⟨e, he, hea⟩)
  simpa using this

theorem Dom.ids_update (a : Nat) (f : Element → Element) (hf : ∀ e, (f e).id = e.id) (d : Dom) :
    (d.update a f).ids = d.ids := by
  unfold Dom.update
  apply Dom.ids_mapEls
  intro e
  split
  · exact hf e
  · rfl


theorem document_after_both_delays (doc : Dom) (t0 t : Nat) (hd : doc.ids.Nodup)
    (ht : t0 + 5500 ≤ t) :
    (advanceTo t (onDOMContentLoaded (pageAtLoad t0 doc))).document = doc.prune selAlert := by
  rw [advanceTo_document, onDOMContentLoaded_atLoad, pendingRuns_fades,
    run_after_remove _ t t0 doc _ _ ht]
  apply Dom.prune_congr
  intro e he
  rw [Bool.eq_iff_iff, decide_eq_true_iff]
  exact mem_querySelectorAll_iff selAlert doc hd e he

theorem alert_absent_after_both_delays (doc : Dom) (t0 t : Nat) (hd : doc.ids.Nodup)
    (ht : t0 + 5500 ≤ t) (e : Element) (he : e ∈ doc.elems) (ha : selAlert e = true) :
    e.id ∉ (advanceTo t (onDOMContentLoaded (pageAtLoad t0 doc))).document.ids := by
  intro hin
  rw [document_after_both_delays doc t0 t hd ht] at hin
  obtain ⟨x, hx, hxe⟩ := List.mem_map.mp hin
  have hxd : x ∈ doc.elems := (Dom.elems_prune_sublist selAlert doc).subset hx
  have hxa := Dom.prune_elems_false selAlert doc x hx
  rw [Dom.eq_of_id_eq doc hd x e hxd he hxe, ha] at hxa
  exact Bool.noConfusion hxa

/-! ### The fuel of `advanceTo` is enough -/

theorem popEarliest_none (l : List Timer) (h : popEarliest l = none) : l = [] := by
  cases l with
  | nil => rfl
  | cons x xs =>
    simp only [popEarliest] at h
    cases hp : popEarliest xs with
    | none => simp [hp] at h
    | some r =>
      simp only [hp] at h
      split at h <;> simp at h

theorem popEarliest_min (l : List Timer) (y : Timer) (ys : List Timer)
    (h : popEarliest l = some (y, ys)) : ∀ x ∈ l, y.due ≤ x.due := by
  induction l generalizing y ys with
  | nil => simp [popEarliest] at h
  | cons x xs ih =>
    simp only [popEarliest] at h
    cases hp : popEarliest xs with
    | none =>
      simp only [hp, Option.some.injEq, Prod.mk.injEq] at h
      have hxs := popEarliest_none xs hp
      subst hxs
      intro z hz
      simp only [List.mem_singleton] at hz
      rw [hz, h.1]
    | some r =>
      obtain ⟨z, zs⟩ := r
      simp only [hp] at h
      have hz := ih z zs hp
      by_cases hle : x.due ≤ z.due
      · simp only [hle, if_true, Option.some.injEq, Prod.mk.injEq] at h
        intro w hw
        rw [← h.1]
        rcases List.mem_cons.mp hw with rfl | hw
        · exact Nat.le_refl _
        · exact Nat.le_trans hle (hz w hw)
      · simp only [hle, if_false, Option.some.injEq, Prod.mk.injEq] at h
        intro w hw
        rw [← h.1]
        rcases List.mem_cons.mp hw with rfl | hw
        · omega
        · exact hz w hw

theorem popEarliest_pendingRuns (l : List Timer) (y : Timer) (ys : List Timer)
    (h : popEarliest l = some (y, ys)) :
    pendingRuns l = y.callback.weight + pendingRuns ys := by
  induction l generalizing y ys with
  | nil => simp [popEarliest] at h
  | cons x xs ih =>
    simp only [popEarliest] at h
    cases hp : popEarliest xs with
    | none =>
      simp only [hp, Option.some.injEq, Prod.mk.injEq] at h
      have hxs := popEarliest_none xs hp
      subst hxs
      rw [← h.1, ← h.2]
      simp [pendingRuns]
    | some r =>
      obtain ⟨z, zs⟩ := r
      simp only [hp] at h
      have hz := ih z zs hp
      by_cases hle : x.due ≤ z.due
      · simp only [hle, if_true, Option.some.injEq, Prod.mk.injEq] at h
        rw [← h.1, ← h.2]
        simp [pendingRuns]
      · simp only [hle, if_false, Option.some.injEq, Prod.mk.injEq] at h
        rw [← h.1, ← h.2]
        simp only [pendingRuns, List.map_cons, List.sum_cons] at hz ⊢
        omega

theorem pendingRuns_runCallback (cb : Callback) (p : Page) :
    pendingRuns (runCallback cb p).timers + 1 = cb.weight + pendingRuns p.timers := by
  cases cb with
  | fadeOut a =>
    simp only [runCallback, setTimeout, pendingRuns, List.map_append, List.sum_append,
      List.map_cons, List.map_nil, List.sum_cons, List.sum_nil, Callback.weight]
    omega
  | removeEl a =>
    simp only [runCallback, Callback.weight]
    omega

theorem pendingRuns_zero (l : List Timer) (h : pendingRuns l = 0) : l = [] := by
  cases l with
  | nil => rfl
  | cons x xs =>
    simp only [pendingRuns, List.map_cons, List.sum_cons] at h
    cases hx : x.callback <;> simp [hx, Callback.weight] at h

theorem runTimers_complete (fuel t : Nat) (p : Page) (h : pendingRuns p.timers ≤ fuel) :
    ∀ tm ∈ (runTimers fuel t p).timers, t < tm.due := by
  induction fuel generalizing p with
  | zero =>
    have := pendingRuns_zero p.timers (Nat.le_zero.mp h)
    simp [runTimers, this]
  | succ n ih =>
    simp only [runTimers]
    cases hp : popEarliest p.timers with
    | none => simp [popEarliest_none _ hp]
    | some r =>
      obtain ⟨y, ys⟩ := r
      by_cases hdue : y.due ≤ t
      · simp only [hdue, if_true]
        apply ih
        have h1 := pendingRuns_runCallback y.callback
          { p with now := max p.now y.due, timers := ys }
        have h2 := popEarliest_pendingRuns _ _ _ hp
        simp only at h1
        omega
      · simp only [hdue, if_false]
        intro tm htm
        have := popEarliest_min _ _ _ hp tm htm
        omega

/-- Whatever is pending, `advanceTo t` runs every timer that falls due by `t`:
the timers left afterwards are all due later. -/
theorem advanceTo_complete (t : Nat) (p : Page) :
    ∀ tm ∈ (advanceTo t p).timers, t < tm.due :=
  runTimers_complete _ t p (Nat.le_refl _)

/-! # The claims -/


/-! ## The form guard -/

/-- C1. In a well-formed document, the submit handler of a form cancels the
submission exactly when some `input[required]` of the form has a value that is
empty after trimming; when it cancels, its effects are one `preventDefault`
followed by one notice with the fixed text, and when it does not cancel it has
no effect at all (no notice). -/
theorem submit_cancels_iff_blank_required (doc : Dom) (form : Nat) (hd : doc.ids.Nodup) :
    (cancelled (onSubmit form doc) ↔ ∃ e ∈ requiredInputs form doc, trim e.value = "") ∧
    (cancelled (onSubmit form doc) →
      (onSubmit form doc).2 =
        [Effect.preventDefault, Effect.alert "Please fill in all required fields."] ∧
      (onSubmit form doc).2.count (Effect.alert "Please fill in all required fields.") = 1) ∧
    (¬ cancelled (onSubmit form doc) → (onSubmit form doc).2 = []) := by
  have hv := isValid_iff form doc hd
  rw [cancelled, onSubmit_effects]
  cases hb : (doc.elementQuerySelectorAll form selInputRequired).all
      (fun a => !((blankAt doc a).getD false)) with
  | true =>
    rw [hb] at hv
    have hall := hv.mp rfl
    refine ⟨?_, ?_, ?_⟩
    · simp only [blockIfInvalid_true, List.not_mem_nil, false_iff]
      rintro ⟨e, he, hbl⟩
      exact hall e he hbl
    · simp [blockIfInvalid_true]
    · intro _; rfl
  | false =>
    rw [hb] at hv
    have hex : ∃ e ∈ requiredInputs form doc, trim e.value = "" := by
      by_contra hne
      push_neg at hne
      exact absurd (hv.mpr hne) (by simp)
    refine ⟨?_, ?_, ?_⟩
    · simp only [blockIfInvalid_false, List.mem_cons, true_or, true_iff]
      exact hex
    · intro _
      exact ⟨rfl, by decide⟩
    · intro h
      exact absurd (by simp [blockIfInvalid_false]) h

/-- Witness for C1 on the sign-up form with an empty name. -/
theorem submit_cancels_iff_blank_required_witness :
    (cancelled (onSubmit 1 (signupDoc "" "a@b.com" [] [])) ↔
      ∃ e ∈ requiredInputs 1 (signupDoc "" "a@b.com" [] []), trim e.value = "") ∧
    (cancelled (onSubmit 1 (signupDoc "" "a@b.com" [] [])) →
      (onSubmit 1 (signupDoc "" "a@b.com" [] [])).2 =
        [Effect.preventDefault, Effect.alert "Please fill in all required fields."] ∧
      (onSubmit 1 (signupDoc "" "a@b.com" [] [])).2.count
        (Effect.alert "Please fill in all required fields.") = 1) ∧
    (¬ cancelled (onSubmit 1 (signupDoc "" "a@b.com" [] [])) →
      (onSubmit 1 (signupDoc "" "a@b.com" [] [])).2 = []) :=
  submit_cancels_iff_blank_required (signupDoc "" "a@b.com" [] []) 1 (by decide)

/-- C2. In a well-formed document, submitting a form of which some
`input[required]` is empty or whitespace-only has exactly the effects
`preventDefault` and one notice; afterwards the form has the same required
inputs with the same values, and each of them carries `is-invalid` if and only
if its trimmed value is empty, whatever classes it carried before. -/
theorem blank_submission_flags_exactly_blank (doc : Dom) (form : Nat) (hd : doc.ids.Nodup)
    (hblank : ∃ e ∈ requiredInputs form doc, trim e.value = "") :
    (onSubmit form doc).2 =
      [Effect.preventDefault, Effect.alert "Please fill in all required fields."] ∧
    (requiredInputs form (onSubmit form doc).1).map (fun e => (e.id, e.value)) =
      (requiredInputs form doc).map (fun e => (e.id, e.value)) ∧
    ∀ e ∈ requiredInputs form (onSubmit form doc).1,
      (flagged e = true ↔ trim e.value = "") := by
  refine ⟨?_, ?_, ?_⟩
  · rw [onSubmit_effects]
    cases hb : (doc.elementQuerySelectorAll form selInputRequired).all
        (fun a => !((blankAt doc a).getD false)) with
    | true =>
      obtain ⟨e, he, hbl⟩ := hblank
      exact absurd hbl ((isValid_iff form doc hd).mp hb e he)
    | false => rfl
  · rw [requiredInputs_after form doc hd, List.map_map]
    apply List.map_congr_left
    intro e _
    simp [markInput_id, markInput_value]
  · intro e he
    rw [requiredInputs_after form doc hd] at he
    obtain ⟨x, _, rfl⟩ := List.mem_map.mp he
    rw [flagged_markInput, markInput_value]

/-- Witness for C2: the name is whitespace-only and unflagged, the email is
filled but flagged from an earlier attempt. -/
theorem blank_submission_flags_exactly_blank_witness :
    (onSubmit 1 (signupDoc "  " "a@b.com" [] ["is-invalid"])).2 =
      [Effect.preventDefault, Effect.alert "Please fill in all required fields."] ∧
    (requiredInputs 1 (onSubmit 1 (signupDoc "  " "a@b.com" [] ["is-invalid"])).1).map
        (fun e => (e.id, e.value)) =
      (requiredInputs 1 (signupDoc "  " "a@b.com" [] ["is-invalid"])).map
        (fun e => (e.id, e.value)) ∧
    ∀ e ∈ requiredInputs 1 (onSubmit 1 (signupDoc "  " "a@b.com" [] ["is-invalid"])).1,
      (flagged e = true ↔ trim e.value = "") :=
  blank_submission_flags_exactly_blank (signupDoc "  " "a@b.com" [] ["is-invalid"]) 1
    (by decide) (by decide)

/-- C3 as stated fails: every required input of the form is filled, the
handler lets the submission through, and the form still contains an element
with the invalid flag (the optional input the server had flagged). -/
theorem valid_submission_keeps_foreign_flag :
    (∀ e ∈ requiredInputs 1 optionalFlaggedDoc, trim e.value ≠ "") ∧
    (onSubmit 1 optionalFlaggedDoc).2 = [] ∧
    ∃ e ∈ Dom.matchesWithin 1 (fun _ => true) (onSubmit 1 optionalFlaggedDoc).1,
      flagged e = true := by
  decide

/-- C3, amended. In a well-formed document, submitting a form whose
`input[required]` elements are all non-empty after trimming has no effect on
the event or the user (no `preventDefault`, no notice). Afterwards the form has
the same required inputs with the same values and none of them carries
`is-invalid`, whatever it carried before; every other element of the form is
exactly as it was, so an `is-invalid` on an element that is not an
`input[required]` is not touched and stays. -/
theorem valid_submission_clears_required_flags (doc : Dom) (form : Nat) (hd : doc.ids.Nodup)
    (hfilled : ∀ e ∈ requiredInputs form doc, trim e.value ≠ "") :
    (onSubmit form doc).2 = [] ∧
    ¬ cancelled (onSubmit form doc) ∧
    (∀ e ∈ requiredInputs form (onSubmit form doc).1, flagged e = false) ∧
    (requiredInputs form (onSubmit form doc).1).map (fun e => (e.id, e.value)) =
      (requiredInputs form doc).map (fun e => (e.id, e.value)) ∧
    Dom.matchesWithin form (fun x => !selInputRequired x) (onSubmit form doc).1 =
      Dom.matchesWithin form (fun x => !selInputRequired x) doc ∧
    (∀ e ∈ Dom.matchesWithin form (fun _ => true) doc,
      selInputRequired e = false → flagged e = true →
        e ∈ Dom.matchesWithin form (fun _ => true) (onSubmit form doc).1) := by
  have heff : (onSubmit form doc).2 = [] := by
    rw [onSubmit_effects, (isValid_iff form doc hd).mpr hfilled]
    rfl
  have hkeep : ∀ sel : Element → Bool, ∀ e ∈ Dom.matchesWithin form sel doc,
      selInputRequired e = false →
        revalidated (doc.elementQuerySelectorAll form selInputRequired) doc e = e := by
    intro sel e he hs
    have hmem := (matchesWithin_mem form sel doc e he).1
    rw [revalidated_of_mem _ doc hd e hmem]
    have hni : e.id ∉ doc.elementQuerySelectorAll form selInputRequired := by
      intro hi
      have hr := (mem_inputs_iff form selInputRequired doc hd e hmem).mp hi
      have := (matchesWithin_mem form selInputRequired doc e hr).2
      rw [hs] at this
      exact Bool.noConfusion this
    simp [hni]
  refine ⟨heff, ?_, ?_, ?_, ?_, ?_⟩
  · simp [cancelled, heff]
  · intro e he
    rw [requiredInputs_after form doc hd] at he
    obtain ⟨x, hx, rfl⟩ := List.mem_map.mp he
    have := (flagged_markInput x).not.mpr (hfilled x hx)
    simpa using this
  · rw [requiredInputs_after form doc hd, List.map_map]
    apply List.map_congr_left
    intro e _
    simp [markInput_id, markInput_value]
  · rw [onSubmit_document, matchesWithin_mapEls form (fun x => !selInputRequired x) _
      (revalidated_id _ _) (fun e => by simp only [revalidated_sel])]
    conv_rhs => rw [← List.map_id (Dom.matchesWithin form (fun x => !selInputRequired x) doc)]
    apply List.map_congr_left
    intro e he
    have hs := (matchesWithin_mem form (fun x => !selInputRequired x) doc e he).2
    simp only [Bool.not_eq_true', id_eq] at hs ⊢
    exact hkeep _ e he hs
  · intro e he hs _
    rw [onSubmit_document, matchesWithin_mapEls form (fun _ => true) _
      (revalidated_id _ _) (fun _ => rfl)]
    exact List.mem_map.mpr ⟨e, he, hkeep _ e he hs⟩

/-- Witness for the amended C3: the required input is filled and was flagged
beforehand, and the optional input carries a flag of its own. -/
theorem valid_submission_clears_required_flags_witness :
    (onSubmit 1 staleFlagsDoc).2 = [] ∧
    ¬ cancelled (onSubmit 1 staleFlagsDoc) ∧
    (∀ e ∈ requiredInputs 1 (onSubmit 1 staleFlagsDoc).1, flagged e = false) ∧
    (requiredInputs 1 (onSubmit 1 staleFlagsDoc).1).map (fun e => (e.id, e.value)) =
      (requiredInputs 1 staleFlagsDoc).map (fun e => (e.id, e.value)) ∧
    Dom.matchesWithin 1 (fun x => !selInputRequired x) (onSubmit 1 staleFlagsDoc).1 =
      Dom.matchesWithin 1 (fun x => !selInputRequired x) staleFlagsDoc ∧
    (∀ e ∈ Dom.matchesWithin 1 (fun _ => true) staleFlagsDoc,
      selInputRequired e = false → flagged e = true →
        e ∈ Dom.matchesWithin 1 (fun _ => true) (onSubmit 1 staleFlagsDoc).1) :=
  valid_submission_clears_required_flags staleFlagsDoc 1 (by decide) (by decide)

/-- C5. In a well-formed document and after any history of edits and
submissions, one more submission of a form leaves the form with the same
required inputs and values, and each `input[required]` of the form carries
`is-invalid` if and only if its trimmed value at that submission is empty: the
flag is recomputed from the current value, not accumulated. The scenario of
the specification holds: with name empty and email `a@b.com` the submission is
blocked with the notice, name is flagged and email is not; after typing
`Alice` into name, resubmitting proceeds and no field is flagged. -/
theorem resubmission_recomputes_flags :
    (∀ (doc : Dom) (history : List UserAction) (form : Nat), doc.ids.Nodup →
      (requiredInputs form (session doc (history ++ [UserAction.submit form]))).map
          (fun e => (e.id, e.value)) =
        (requiredInputs form (session doc history)).map (fun e => (e.id, e.value)) ∧
      ∀ e ∈ requiredInputs form (session doc (history ++ [UserAction.submit form])),
        (flagged e = true ↔ trim e.value = "")) ∧
    (onSubmit 1 (signupDoc "" "a@b.com" [] []) =
        (signupDoc "" "a@b.com" ["is-invalid"] [],
          [Effect.preventDefault, Effect.alert "Please fill in all required fields."]) ∧
      session (signupDoc "" "a@b.com" [] [])
          [UserAction.submit 1, UserAction.setValue 2 "Alice"] =
        signupDoc "Alice" "a@b.com" ["is-invalid"] [] ∧
      onSubmit 1 (signupDoc "Alice" "a@b.com" ["is-invalid"] []) =
        (signupDoc "Alice" "a@b.com" [] [], []) ∧
      ∀ e ∈ requiredInputs 1 (signupDoc "Alice" "a@b.com" [] []), flagged e = false) := by
  refine ⟨?_, by decide⟩
  intro doc history form hd
  have hs : session doc (history ++ [UserAction.submit form]) =
      (onSubmit form (session doc history)).1 := by
    simp [session, List.foldl_append, act]
  have hd1 : (session doc history).ids.Nodup := by
    rw [ids_session]
    exact hd
  rw [hs, requiredInputs_after form _ hd1]
  refine ⟨?_, ?_⟩
  · rw [List.map_map]
    apply List.map_congr_left
    intro e _
    simp [markInput_id, markInput_value]
  · intro e he
    obtain ⟨x, _, rfl⟩ := List.mem_map.mp he
    rw [flagged_markInput, markInput_value]

/-- Witness for C5: a first blocked submission, the name corrected, then the
submission under test. -/
theorem resubmission_recomputes_flags_witness :
    (requiredInputs 1 (session (signupDoc "" "a@b.com" [] [])
        ([UserAction.submit 1, UserAction.setValue 2 "Alice"] ++ [UserAction.submit 1]))).map
          (fun e => (e.id, e.value)) =
        (requiredInputs 1 (session (signupDoc "" "a@b.com" [] [])
          [UserAction.submit 1, UserAction.setValue 2 "Alice"])).map
            (fun e => (e.id, e.value)) ∧
      ∀ e ∈ requiredInputs 1 (session (signupDoc "" "a@b.com" [] [])
          ([UserAction.submit 1, UserAction.setValue 2 "Alice"] ++ [UserAction.submit 1])),
        (flagged e = true ↔ trim e.value = "") :=
  resubmission_recomputes_flags.1 (signupDoc "" "a@b.com" [] [])
    [UserAction.submit 1, UserAction.setValue 2 "Alice"] 1 (by decide)

/-- C6. In a well-formed document, if every `input[required]` of a form is
non-empty after trimming, running the handler twice in a row without changing
any value has no effect on the event or the user either time: no
`preventDefault`, no notice. -/
theorem valid_submission_twice_proceeds (doc : Dom) (form : Nat) (hd : doc.ids.Nodup)
    (hfilled : ∀ e ∈ requiredInputs form doc, trim e.value ≠ "") :
    (onSubmit form doc).2 = [] ∧ (onSubmit form (onSubmit form doc).1).2 = [] := by
  have heff : (onSubmit form doc).2 = [] := by
    rw [onSubmit_effects, (isValid_iff form doc hd).mpr hfilled]
    rfl
  exact ⟨heff, by rw [onSubmit_idem, heff]⟩

/-- Witness for C6 on the filled sign-up form. -/
theorem valid_submission_twice_proceeds_witness :
    (onSubmit 1 (signupDoc "Alice" "a@b.com" [] [])).2 = [] ∧
    (onSubmit 1 (onSubmit 1 (signupDoc "Alice" "a@b.com" [] [])).1).2 = [] :=
  valid_submission_twice_proceeds (signupDoc "Alice" "a@b.com" [] []) 1 (by decide) (by decide)

/-- C8. In a well-formed document, visiting the required inputs of a form in
any order (any permutation of the order `querySelectorAll` returns) gives the
same document and the same effects as the handler; and in the result every
`input[required]` of the form whose trimmed value is empty is flagged, wherever
it stands among the inputs: the pass never stops at the first empty one. -/
theorem validation_visits_all_in_any_order (doc : Dom) (form : Nat) (order : List Nat)
    (hd : doc.ids.Nodup)
    (hperm : order.Perm (doc.elementQuerySelectorAll form selInputRequired)) :
    onSubmitVisiting order doc = onSubmit form doc ∧
    ∀ e ∈ requiredInputs form (onSubmitVisiting order doc).1,
      trim e.value = "" → flagged e = true := by
  have hmem : ∀ a, a ∈ order ↔ a ∈ doc.elementQuerySelectorAll form selInputRequired :=
    fun a => hperm.mem_iff
  have heq : onSubmitVisiting order doc = onSubmit form doc := by
    unfold onSubmit onSubmitVisiting
    rw [validateInputs_eq, validateInputs_eq]
    apply Prod.ext
    · apply Dom.mapEls_congr
      intro e _
      exact revalidated_congr _ _ hmem doc e
    · show blockIfInvalid _ = blockIfInvalid _
      congr 1
      rw [Bool.eq_iff_iff, List.all_eq_true, List.all_eq_true]
      constructor
      · intro h a ha
        exact h a ((hmem a).mpr ha)
      · intro h a ha
        exact h a ((hmem a).mp ha)
  refine ⟨heq, ?_⟩
  intro e he hb
  rw [heq, requiredInputs_after form doc hd] at he
  obtain ⟨x, _, rfl⟩ := List.mem_map.mp he
  rw [markInput_value] at hb
  exact (flagged_markInput x).mpr hb

/-- Witness for C8: both inputs empty, visited in reverse order. -/
theorem validation_visits_all_in_any_order_witness :
    onSubmitVisiting [3, 2] (signupDoc "" " " [] []) = onSubmit 1 (signupDoc "" " " [] []) ∧
    ∀ e ∈ requiredInputs 1 (onSubmitVisiting [3, 2] (signupDoc "" " " [] [])).1,
      trim e.value = "" → flagged e = true :=
  validation_visits_all_in_any_order (signupDoc "" " " [] []) 1 [3, 2] (by decide)
    (List.Perm.swap 2 3 [])

/-- C10. In a well-formed document, one run of the submit handler of a form
keeps the shape of the document and rewrites each element by a function that
changes nothing but the presence of `is-invalid` in the class list: identity,
tag, `required`, value and inline style are kept, the other class tokens are
kept in order, and every element that is not an `input[required]` of this form
(optional inputs, elements of other forms) is left exactly as it was,
including any `is-invalid` of its own. Running the handler again on the result
gives the same document and the same effects. -/
theorem submit_changes_only_required_flags (doc : Dom) (form : Nat) (hd : doc.ids.Nodup) :
    (∃ g : Element → Element,
      (onSubmit form doc).1 = doc.mapEls g ∧
      ∀ e ∈ doc.elems,
        (g e).id = e.id ∧ (g e).tag = e.tag ∧ (g e).required = e.required ∧
        (g e).value = e.value ∧ (g e).style = e.style ∧
        (g e).classList.filter (fun c => c != "is-invalid") =
          e.classList.filter (fun c => c != "is-invalid") ∧
        (e ∉ requiredInputs form doc → g e = e)) ∧
    onSubmit form (onSubmit form doc).1 = onSubmit form doc := by
  refine ⟨⟨revalidated (doc.elementQuerySelectorAll form selInputRequired) doc,
    onSubmit_document form doc, ?_⟩, onSubmit_idem form doc⟩
  intro e he
  rw [revalidated_of_mem _ doc hd e he]
  by_cases hi : e.id ∈ doc.elementQuerySelectorAll form selInputRequired
  · simp only [hi, if_true]
    have hin : e ∈ requiredInputs form doc :=
      (mem_inputs_iff form selInputRequired doc hd e he).mp hi
    unfold markInput
    by_cases hb : trim e.value = ""
    · simp only [hb, if_true]
      exact ⟨rfl, rfl, rfl, rfl, rfl, classList_rest_add _ e, fun h => absurd hin h⟩
    · simp only [hb, if_false]
      exact ⟨rfl, rfl, rfl, rfl, rfl, classList_rest_remove _ e, fun h => absurd hin h⟩
  · simp [hi]

/-- Witness for C10 on the form with a flagged optional input. -/
theorem submit_changes_only_required_flags_witness :
    (∃ g : Element → Element,
      (onSubmit 1 optionalFlaggedDoc).1 = optionalFlaggedDoc.mapEls g ∧
      ∀ e ∈ optionalFlaggedDoc.elems,
        (g e).id = e.id ∧ (g e).tag = e.tag ∧ (g e).required = e.required ∧
        (g e).value = e.value ∧ (g e).style = e.style ∧
        (g e).classList.filter (fun c => c != "is-invalid") =
          e.classList.filter (fun c => c != "is-invalid") ∧
        (e ∉ requiredInputs 1 optionalFlaggedDoc → g e = e)) ∧
    onSubmit 1 (onSubmit 1 optionalFlaggedDoc).1 = onSubmit 1 optionalFlaggedDoc :=
  submit_changes_only_required_flags optionalFlaggedDoc 1 (by decide)


/-! ## The alert dismisser -/

/-- C4 as stated fails: on a page whose alert wraps a `span`, the `span` is
not an alert element, is in the document at initialization, and is no longer
in the document once 5500 ms have elapsed. -/
theorem alert_removal_takes_its_children :
    plainEl 2 "span" [] false "" ∈ alertWithChildDoc.elems ∧
    selAlert (plainEl 2 "span" [] false "") = false ∧
    plainEl 2 "span" [] false "" ∉
      (advanceTo 5500 (onDOMContentLoaded (pageAtLoad 0 alertWithChildDoc))).document.elems ∧
    2 ∉ (advanceTo 5500 (onDOMContentLoaded (pageAtLoad 0 alertWithChildDoc))).document.ids := by
  decide

/-- C4, amended. On a well-formed page loaded at time `t0`, each alert element
gets exactly one fade timer at initialization (due at `t0 + 5000`) and, when
that has fired, exactly one removal timer (due at `t0 + 5500`). At any time
`t ≥ t0 + 5500` no timer is pending, no alert element is in the document, and
the document is the original one with exactly the subtrees rooted at alert
elements cut out: every element that is neither an alert element nor inside
one is still present, unchanged and in place. -/
theorem alerts_removed_after_both_delays (doc : Dom) (t0 t : Nat) (hd : doc.ids.Nodup)
    (ht : t0 + 5500 ≤ t) :
    (onDOMContentLoaded (pageAtLoad t0 doc)).timers =
      (doc.querySelectorAll selAlert).map (fun a => ⟨t0 + 5000, Callback.fadeOut a⟩) ∧
    (doc.querySelectorAll selAlert).Nodup ∧
    (advanceTo (t0 + 5000) (onDOMContentLoaded (pageAtLoad t0 doc))).timers =
      (doc.querySelectorAll selAlert).map (fun a => ⟨t0 + 5500, Callback.removeEl a⟩) ∧
    (advanceTo t (onDOMContentLoaded (pageAtLoad t0 doc))).timers = [] ∧
    (∀ e ∈ doc.elems, selAlert e = true →
      e.id ∉ (advanceTo t (onDOMContentLoaded (pageAtLoad t0 doc))).document.ids) ∧
    (advanceTo t (onDOMContentLoaded (pageAtLoad t0 doc))).document = doc.prune selAlert := by
  refine ⟨?_, querySelectorAll_nodup selAlert doc hd, ?_, ?_,
    alert_absent_after_both_delays doc t0 t hd ht, document_after_both_delays doc t0 t hd ht⟩
  · rw [onDOMContentLoaded_atLoad]
  · rw [advanceTo_timers, onDOMContentLoaded_atLoad, pendingRuns_fades,
      run_between _ (t0 + 5000) t0 doc _ _ (Nat.le_refl _) (by omega)]
  · rw [advanceTo_timers, onDOMContentLoaded_atLoad, pendingRuns_fades,
      run_after_remove _ t t0 doc _ _ ht]

/-- Witness for the amended C4: two sibling alerts and a paragraph, 6 seconds
after a load at time 100. -/
theorem alerts_removed_after_both_delays_witness :
    (onDOMContentLoaded (pageAtLoad 100 twoAlertsDoc)).timers =
      (twoAlertsDoc.querySelectorAll selAlert).map
        (fun a => ⟨100 + 5000, Callback.fadeOut a⟩) ∧
    (twoAlertsDoc.querySelectorAll selAlert).Nodup ∧
    (advanceTo (100 + 5000) (onDOMContentLoaded (pageAtLoad 100 twoAlertsDoc))).timers =
      (twoAlertsDoc.querySelectorAll selAlert).map
        (fun a => ⟨100 + 5500, Callback.removeEl a⟩) ∧
    (advanceTo 6100 (onDOMContentLoaded (pageAtLoad 100 twoAlertsDoc))).timers = [] ∧
    (∀ e ∈ twoAlertsDoc.elems, selAlert e = true →
      e.id ∉ (advanceTo 6100 (onDOMContentLoaded (pageAtLoad 100 twoAlertsDoc))).document.ids) ∧
    (advanceTo 6100 (onDOMContentLoaded (pageAtLoad 100 twoAlertsDoc))).document =
      twoAlertsDoc.prune selAlert :=
  alerts_removed_after_both_delays twoAlertsDoc 100 6100 (by decide) (by decide)

/-- C7. The callbacks are total functions of the page, so neither can raise.
When the alert element has already left the document, the fade callback leaves
the document as it is, the removal callback leaves the whole page as it is,
and so does the removal callback run after the fade callback. -/
theorem callbacks_tolerate_removed_alert (p : Page) (a : Nat) (h : a ∉ p.document.ids) :
    (runCallback (Callback.fadeOut a) p).document = p.document ∧
    runCallback (Callback.removeEl a) p = p ∧
    (runCallback (Callback.removeEl a) (runCallback (Callback.fadeOut a) p)).document =
      p.document := by
  have hf : (runCallback (Callback.fadeOut a) p).document = p.document := by
    simp only [runCallback, setTimeout]
    rw [Dom.update_absent a _ p.document h, Dom.update_absent a _ p.document h]
  refine ⟨hf, ?_, ?_⟩
  · simp only [runCallback]
    rw [Dom.removeId_absent a p.document h]
  · simp only [runCallback] at hf ⊢
    rw [hf, Dom.removeId_absent a p.document h]

/-- Witness for C7: the first of two alerts was removed by hand before its
timers fired. -/
theorem callbacks_tolerate_removed_alert_witness :
    (runCallback (Callback.fadeOut 1)
        (pageAtLoad 0 (twoAlertsDoc.removeId 1))).document =
      (pageAtLoad 0 (twoAlertsDoc.removeId 1)).document ∧
    runCallback (Callback.removeEl 1) (pageAtLoad 0 (twoAlertsDoc.removeId 1)) =
      pageAtLoad 0 (twoAlertsDoc.removeId 1) ∧
    (runCallback (Callback.removeEl 1) (runCallback (Callback.fadeOut 1)
        (pageAtLoad 0 (twoAlertsDoc.removeId 1)))).document =
      (pageAtLoad 0 (twoAlertsDoc.removeId 1)).document :=
  callbacks_tolerate_removed_alert (pageAtLoad 0 (twoAlertsDoc.removeId 1)) 1 (by decide)

/-- C9 as stated fails in its last sentence: with an alert (2) nested in an
alert (1), at 5000 ms both are faded and present and the next timer to fire is
the removal of 1; running that callback takes the other alert element 2 out of
the document while the removal timer of 2 is still pending. -/
theorem outer_removal_detaches_nested_alert :
    selAlert (plainEl 2 "div" ["alert", "alert-info"] false "") = true ∧
    2 ∈ (advanceTo 5000 (onDOMContentLoaded (pageAtLoad 0 nestedAlertDoc))).document.ids ∧
    popEarliest (advanceTo 5000 (onDOMContentLoaded (pageAtLoad 0 nestedAlertDoc))).timers =
      some (⟨5500, Callback.removeEl 1⟩, [⟨5500, Callback.removeEl 2⟩]) ∧
    2 ∉ (runCallback (Callback.removeEl 1)
      (advanceTo 5000 (onDOMContentLoaded (pageAtLoad 0 nestedAlertDoc)))).document.ids := by
  decide

/-- C9, amended. On a well-formed page loaded at `t0`, for every alert
element `e` present at initialization: before `t0 + 5000` the document, and so
the style of `e`, is untouched; from `t0 + 5000` until `t0 + 5500` exactly the
alert elements have transition `opacity 0.5s` and opacity `0`, `e` among them,
and `e` is still in the document with its removal timer pending for
`t0 + 5500`; `e` is in the document at every time before `t0 + 5500` and at no
time from `t0 + 5500` on. The fade stage of `e` rewrites only the element with
the identity of `e`; the removal stage of `e` cuts out the subtree rooted at
`e` and changes nothing else, so an alert nested in `e` leaves with it. -/
theorem alert_dismissal_two_staged (doc : Dom) (t0 t : Nat) (e : Element)
    (hd : doc.ids.Nodup) (he : e ∈ doc.elems) (ha : selAlert e = true) :
    (t < t0 + 5000 →
      (advanceTo t (onDOMContentLoaded (pageAtLoad t0 doc))).document = doc) ∧
    (t0 + 5000 ≤ t → t < t0 + 5500 →
      (advanceTo t (onDOMContentLoaded (pageAtLoad t0 doc))).document =
        doc.mapEls (fun x => if selAlert x = true then setFaded x else x) ∧
      (advanceTo t (onDOMContentLoaded (pageAtLoad t0 doc))).document.getEl e.id =
        some { e with style := { transition := "opacity 0.5s", opacity := "0" } } ∧
      ⟨t0 + 5500, Callback.removeEl e.id⟩ ∈
        (advanceTo t (onDOMContentLoaded (pageAtLoad t0 doc))).timers) ∧
    (t < t0 + 5500 →
      e.id ∈ (advanceTo t (onDOMContentLoaded (pageAtLoad t0 doc))).document.ids) ∧
    (t0 + 5500 ≤ t →
      e.id ∉ (advanceTo t (onDOMContentLoaded (pageAtLoad t0 doc))).document.ids) ∧
    (∀ p : Page, (runCallback (Callback.fadeOut e.id) p).document =
      p.document.mapEls (fun x => if x.id = e.id then setFaded x else x)) ∧
    (∀ p : Page, (runCallback (Callback.removeEl e.id) p).document =
      p.document.prune (fun x => x.id == e.id)) := by
  have hin : e.id ∈ doc.ids := List.mem_map.mpr ⟨e, he, rfl⟩
  have hbefore : t < t0 + 5000 →
      (advanceTo t (onDOMContentLoaded (pageAtLoad t0 doc))).document = doc := by
    intro h
    rw [advanceTo_document, onDOMContentLoaded_atLoad, run_before_fade _ _ t t0 doc _ _ h]
  have hmid : t0 + 5000 ≤ t → t < t0 + 5500 →
      (advanceTo t (onDOMContentLoaded (pageAtLoad t0 doc))).document =
        doc.mapEls (fun x => if selAlert x = true then setFaded x else x) := by
    intro h1 h2
    rw [advanceTo_document, onDOMContentLoaded_atLoad, pendingRuns_fades,
      run_between _ t t0 doc _ _ h1 h2]
    apply Dom.mapEls_congr
    intro x hx
    simp only [mem_querySelectorAll_iff selAlert doc hd x hx]
  have hfid : ∀ x : Element,
      (if selAlert x = true then setFaded x else x).id = x.id := by
    intro x
    split <;> rfl
  refine ⟨hbefore, ?_, ?_, ?_, ?_, ?_⟩
  · intro h1 h2
    refine ⟨hmid h1 h2, ?_, ?_⟩
    · rw [hmid h1 h2, Dom.getEl_mapEls _ hfid, Dom.getEl_of_mem doc hd e he]
      simp [ha, setFaded]
    · rw [advanceTo_timers, onDOMContentLoaded_atLoad, pendingRuns_fades,
        run_between _ t t0 doc _ _ h1 h2]
      exact List.mem_map.mpr ⟨e.id, (mem_querySelectorAll_iff selAlert doc hd e he).mpr ha, rfl⟩
  · intro h
    by_cases h1 : t < t0 + 5000
    · rw [hbefore h1]
      exact hin
    · rw [hmid (by omega) h, Dom.ids_mapEls _ doc hfid]
      exact hin
  · intro h
    exact alert_absent_after_both_delays doc t0 t hd h e he ha
  · intro p
    simp only [runCallback, setTimeout]
    exact fade_document e.id p.document
  · intro p
    simp only [runCallback]
    exact Dom.removeId_eq_prune e.id p.document

/-- Witness for the amended C9: the outer of two nested alerts, 5200 ms after a
load at time 0. -/
theorem alert_dismissal_two_staged_witness :
    (5200 < 0 + 5000 →
      (advanceTo 5200 (onDOMContentLoaded (pageAtLoad 0 nestedAlertDoc))).document =
        nestedAlertDoc) ∧
    (0 + 5000 ≤ 5200 → 5200 < 0 + 5500 →
      (advanceTo 5200 (onDOMContentLoaded (pageAtLoad 0 nestedAlertDoc))).document =
        nestedAlertDoc.mapEls (fun x => if selAlert x = true then setFaded x else x) ∧
      (advanceTo 5200 (onDOMContentLoaded (pageAtLoad 0 nestedAlertDoc))).document.getEl
          (plainEl 1 "div" ["alert"] false "").id =
        some { plainEl 1 "div" ["alert"] false "" with
          style := { transition := "opacity 0.5s", opacity := "0" } } ∧
      ⟨0 + 5500, Callback.removeEl (plainEl 1 "div" ["alert"] false "").id⟩ ∈
        (advanceTo 5200 (onDOMContentLoaded (pageAtLoad 0 nestedAlertDoc))).timers) ∧
    (5200 < 0 + 5500 →
      (plainEl 1 "div" ["alert"] false "").id ∈
        (advanceTo 5200 (onDOMContentLoaded (pageAtLoad 0 nestedAlertDoc))).document.ids) ∧
    (0 + 5500 ≤ 5200 →
      (plainEl 1 "div" ["alert"] false "").id ∉
        (advanceTo 5200 (onDOMContentLoaded (pageAtLoad 0 nestedAlertDoc))).document.ids) ∧
    (∀ p : Page, (runCallback (Callback.fadeOut (plainEl 1 "div" ["alert"] false "").id) p).document =
      p.document.mapEls
        (fun x => if x.id = (plainEl 1 "div" ["alert"] false "").id then setFaded x else x)) ∧
    (∀ p : Page, (runCallback (Callback.removeEl (plainEl 1 "div" ["alert"] false "").id) p).document =
      p.document.prune (fun x => x.id == (plainEl 1 "div" ["alert"] false "").id)) :=
  alert_dismissal_two_staged nestedAlertDoc 0 5200 (plainEl 1 "div" ["alert"] false "")
    (by decide) (by decide) (by decide)

end BlogScripts
